import Mathlib

/-!
Verification development for the cai2hcl conversion framework (package
`common` of the repository): the value normalizer `normalizeFlattenedMap`,
the conversion orchestrator `Convert`, the block tree writer
`hclWriteBlock`, and the pattern-based asset-name resolver.

The Go code is shallowly embedded:

* `cty.Value` / `cty.Type` (the typed value trees produced by
  `MapToCtyValWithSchema` and consumed by `hclWriteBlock`) become the
  inductives `Ty` and `Val`.  A `Val` stores its fields and collection
  elements in the order the corresponding Go value's `ElementIterator`
  yields them.
* an `hclwrite.Body` is represented by the ordered list of items appended
  to it (`BodyItem`), and the final document by the ordered list of
  top-level `resource` blocks plus a deterministic rendering to text.
* Go's `map[K]V` values that the code only looks keys up in
  (`converterNames`, `converterMap`) become association lists queried with
  `List.lookup`.  The one map the code *ranges over* (`groups` inside
  `Convert`) is built as an association list in first-insertion order, and
  the nondeterministic `range` order of a Go map is made explicit as an
  extra `order : List String` argument: one run of the Go function
  corresponds to one choice of `order` that is a permutation of the keys.
* errors (`error` results) become `Except String`.
-/

/-- Model of `cty.Type`: primitive types, object types with named fields,
and the three collection kinds (list, set, map). -/
inductive Ty where
  | str
  | num
  | boolean
  | obj (fields : List (String × Ty))
  | list (elem : Ty)
  | set (elem : Ty)
  | map (elem : Ty)

/-- Model of `Type.IsObjectType()`. -/
def Ty.isObject : Ty → Bool
  | .obj _ => true
  | _ => false

/-- Model of `Type.FriendlyName()` from go-cty, for the type names the
writer compares against and puts in its error message. -/
def Ty.friendlyName : Ty → String
  | .str => "string"
  | .num => "number"
  | .boolean => "bool"
  | .obj _ => "object"
  | .list e => "list of " ++ e.friendlyName
  | .set e => "set of " ++ e.friendlyName
  | .map e => "map of " ++ e.friendlyName

/-- Model of `cty.Value`: a null of some type, a primitive scalar, an
object with ordered named fields, or a collection (list/set/map) carrying
its element type and its elements in iteration order. -/
inductive Val where
  | vnull (t : Ty)
  | vstr (s : String)
  | vnum (n : Int)
  | vbool (b : Bool)
  | vobj (fields : List (String × Val))
  | vlist (elem : Ty) (xs : List Val)
  | vset (elem : Ty) (xs : List Val)
  | vmap (elem : Ty) (kvs : List (String × Val))

/-- Model of `Value.IsNull()`. -/
def Val.isNull : Val → Bool
  | .vnull _ => true
  | _ => false

/-- Model of `Value.Type().FriendlyName()`. -/
def Val.friendly : Val → String
  | .vnull t => t.friendlyName
  | .vstr _ => "string"
  | .vnum _ => "number"
  | .vbool _ => "bool"
  | .vobj _ => "object"
  | .vlist e _ => "list of " ++ e.friendlyName
  | .vset e _ => "set of " ++ e.friendlyName
  | .vmap e _ => "map of " ++ e.friendlyName

/-- Model of `Value.Type().IsObjectType()`. -/
def Val.isObjectTyped : Val → Bool
  | .vnull (.obj _) => true
  | .vobj _ => true
  | _ => false

/-- Model of `Value.AsString()` (only ever called on string-typed values;
other shapes give the empty string here, matching that the Go code guards
every call with a type test). -/
def Val.asString : Val → String
  | .vstr s => s
  | _ => ""

/-- One item appended to an `hclwrite.Body`: a flat attribute
(`SetAttributeValue`) or a nested block (`AppendNewBlock` with no labels)
with its own body. -/
inductive BodyItem where
  | attr (name : String) (value : Val)
  | block (name : String) (body : List BodyItem)

/-- Name under which a body item was appended. -/
def BodyItem.itemName : BodyItem → String
  | .attr n _ => n
  | .block n _ => n

/-- Model of the `default:` arm of the switch in `hclWriteBlock`: skip an
empty string scalar, otherwise emit a flat attribute. -/
def emitAttr (key : String) (v : Val) : Except String (List BodyItem) :=
  if v.friendly == "string" && v.asString == "" then .ok []
  else .ok [.attr key v]

mutual

/-- Model of `hclWriteBlock(val cty.Value, body *hclwrite.Body) error`
from the common package: a null value writes nothing, a non-object value
is an error, and an object value has each of its fields written in
iteration order.  The items appended to the Go `body` are returned as the
`ok` result. -/
def hclWriteBlock : Val → Except String (List BodyItem)
  | .vnull _ => .ok []
  | .vobj fields => hclWriteBody fields
  | v => .error ("expect object type only, but type = " ++ v.friendly)
termination_by v => (sizeOf v, 0)

/-- The `for it.Next()` loop of `hclWriteBlock` over an object value's
fields: items of all fields, concatenated in field order. -/
def hclWriteBody : List (String × Val) → Except String (List BodyItem)
  | [] => .ok []
  | (key, v) :: rest => do
      let items ← hclWriteField key v
      let restItems ← hclWriteBody rest
      .ok (items ++ restItems)
termination_by fs => (sizeOf fs, 1)

/-- One iteration of the field loop of `hclWriteBlock`: the null check,
then the switch on the field value's type (object / collection /
default). -/
def hclWriteField (key : String) (v : Val) : Except String (List BodyItem) :=
  match v with
  | .vnull _ => .ok []
  | .vobj fields => do
      let b ← hclWriteBlock (.vobj fields)
      .ok [.block key b]
  | .vlist elem xs =>
      if xs.length == 0 then .ok []
      else if elem.isObject then hclWriteElems key xs
      else emitAttr key (.vlist elem xs)
  | .vset elem xs =>
      if xs.length == 0 then .ok []
      else if elem.isObject then hclWriteElems key xs
      else emitAttr key (.vset elem xs)
  | .vmap elem kvs =>
      if kvs.length == 0 then .ok []
      else emitAttr key (.vmap elem kvs)
  | v => emitAttr key v
termination_by (sizeOf v, 2)

/-- The inner `for listIterator.Next()` loop of `hclWriteBlock`: one
repeated nested block (same name, no labels) per collection element, in
element order. -/
def hclWriteElems (key : String) : List Val → Except String (List BodyItem)
  | [] => .ok []
  | x :: xs => do
      let b ← hclWriteBlock x
      let rest ← hclWriteElems key xs
      .ok (.block key b :: rest)
termination_by xs => (sizeOf xs, 1)

end

/-- Model of `caiasset.Asset` restricted to the fields this package
reads: the asset type identifier and the resource name. -/
structure Asset where
  assetType : String
  name : String

/-- Model of `*HCLResourceBlock`: labels plus the typed body value. -/
structure ResourceBlock where
  Labels : List String
  Value : Val

/-- Model of the `Converter` capability: a batch of same-kind assets in,
resource blocks (or an error) out. -/
abbrev Converter := List Asset → Except String (List ResourceBlock)

/-- One top-level `resource` block appended to the output file's root
body, with its labels and already-written body items. -/
structure TopBlock where
  Labels : List String
  body : List BodyItem

/-- Effectful loop over a list, stopping at the first error — the shape of
every `for range` loop with an `if err != nil return` body in the Go
code. -/
def mapMExcept (f : α → Except String β) : List α → Except String (List β)
  | [] => .ok []
  | x :: xs => do
      let b ← f x
      let rest ← mapMExcept f xs
      .ok (b :: rest)

/-- Appending one asset to its group: `groups[name] = append(groups[name], asset)`
on an association-list representation that keeps keys in first-insertion
order. -/
def addAssetToGroups (groups : List (String × List Asset)) (name : String) (a : Asset) :
    List (String × List Asset) :=
  match groups with
  | [] => [(name, [a])]
  | (k, xs) :: rest =>
      if k = name then (k, xs ++ [a]) :: rest
      else (k, xs) :: addAssetToGroups rest name a

/-- The grouping loop of `Convert`: partition assets by the converter name
`converterNames[asset.Type]`, silently dropping assets whose type has no
entry. -/
def buildGroups (assets : List Asset) (converterNames : List (String × String)) :
    List (String × List Asset) :=
  assets.foldl
    (fun gs a =>
      match List.lookup a.assetType converterNames with
      | none => gs
      | some name => addAssetToGroups gs name a)
    []

/-- One iteration of the `for name, v := range groups` loop of `Convert`:
look the group's converter up (a missing converter skips the group),
convert the group's assets, and write each emitted resource block. -/
def stepGroup (converterMap : List (String × Converter))
    (groups : List (String × List Asset)) (name : String) :
    Except String (List TopBlock) :=
  match List.lookup name converterMap with
  | none => .ok []
  | some converter => do
      let items ← converter ((List.lookup name groups).getD [])
      mapMExcept
        (fun rb => do
          let body ← hclWriteBlock rb.Value
          .ok (TopBlock.mk rb.Labels body))
        items

/-- Document-tree part of `Convert`: group the assets, run the group loop
in the given map-iteration order, and collect every appended top-level
block in order. -/
def convertDoc (assets : List Asset) (converterNames : List (String × String))
    (converterMap : List (String × Converter)) (order : List String) :
    Except String (List TopBlock) := do
  let groups := buildGroups assets converterNames
  let results ← mapMExcept (stepGroup converterMap groups) order
  .ok results.flatten

mutual

/-- Deterministic rendering of a value as expression text, modelling the
hclwrite token output consumed by `printer.Format`. -/
def renderVal : Val → String
  | .vnull _ => "null"
  | .vstr s => "\"" ++ s ++ "\""
  | .vnum n => toString n
  | .vbool b => toString b
  | .vobj fields => "\x7b" ++ renderValKVs fields ++ "\x7d"
  | .vlist _ xs => "[" ++ renderVals xs ++ "]"
  | .vset _ xs => "[" ++ renderVals xs ++ "]"
  | .vmap _ kvs => "\x7b" ++ renderValKVs kvs ++ "\x7d"
termination_by v => sizeOf v

/-- Comma-separated rendering of collection elements. -/
def renderVals : List Val → String
  | [] => ""
  | x :: xs => renderVal x ++ ", " ++ renderVals xs
termination_by xs => sizeOf xs

/-- Comma-separated rendering of object fields and map entries. -/
def renderValKVs : List (String × Val) → String
  | [] => ""
  | (k, v) :: rest => k ++ " = " ++ renderVal v ++ ", " ++ renderValKVs rest
termination_by kvs => sizeOf kvs

end

mutual

/-- Textual form of one body item. -/
def renderItem : BodyItem → String
  | .attr n v => n ++ " = " ++ renderVal v ++ "\n"
  | .block n body => n ++ " \x7b\n" ++ renderItems body ++ "\x7d\n"
termination_by i => sizeOf i

/-- Textual form of a body, item after item in append order. -/
def renderItems : List BodyItem → String
  | [] => ""
  | i :: rest => renderItem i ++ renderItems rest
termination_by l => sizeOf l

end

/-- Textual form of one top-level `resource` block. -/
def renderTopBlock (b : TopBlock) : String :=
  "resource" ++ String.join (b.Labels.map (fun l => " \"" ++ l ++ "\"")) ++
    " \x7b\n" ++ renderItems b.body ++ "\x7d\n"

/-- Model of `f.Bytes()` followed by `printer.Format`: a deterministic
rendering of the appended blocks in append order. -/
def renderDocument (bs : List TopBlock) : String :=
  String.join (bs.map renderTopBlock)

/-- Model of `Convert(assets, converterNames, converterMap) ([]byte, error)`
from the common package.  `order` is the iteration order of the
`range groups` loop: Go chooses some permutation of the group keys on
each run. -/
def Convert (assets : List Asset) (converterNames : List (String × String))
    (converterMap : List (String × Converter)) (order : List String) :
    Except String String :=
  (convertDoc assets converterNames converterMap order).map renderDocument

/-- Boolean success test on an `Except` result. -/
def exceptIsOk : Except String α → Bool
  | .ok _ => true
  | .error _ => false

/-- Model of the untyped attribute trees `normalizeFlattenedMap` walks:
scalars, JSON arrays (`[]interface\x7b\x7d`), string-keyed maps
(`map[string]interface\x7b\x7d`), and the set-like container
(`*schema.Set`) whose `List()` yields its elements in iteration order. -/
inductive AttrTree where
  | scalarStr (s : String)
  | scalarNum (n : Int)
  | scalarBool (b : Bool)
  | scalarNull
  | arr (xs : List AttrTree)
  | map (kvs : List (String × AttrTree))
  | set (xs : List AttrTree)

mutual

/-- Model of `normalizeFlattenedMap` from the common package: arrays and
maps are rebuilt with normalized children, a `*schema.Set` is replaced by
`obj.(*schema.Set).List()` — the element list exactly as stored, without
a recursive call — and scalars are returned unchanged. -/
def normalizeFlattenedMap : AttrTree → AttrTree
  | .arr xs => .arr (normalizeList xs)
  | .map kvs => .map (normalizeKVs kvs)
  | .set xs => .arr xs
  | t => t
termination_by t => sizeOf t

/-- Element-wise normalization of an array's entries. -/
def normalizeList : List AttrTree → List AttrTree
  | [] => []
  | x :: xs => normalizeFlattenedMap x :: normalizeList xs
termination_by xs => sizeOf xs

/-- Value-wise normalization of a map's entries. -/
def normalizeKVs : List (String × AttrTree) → List (String × AttrTree)
  | [] => []
  | (k, v) :: rest => (k, normalizeFlattenedMap v) :: normalizeKVs rest
termination_by kvs => sizeOf kvs

end

mutual

/-- Does a set-like container occur anywhere in the tree? -/
def containsSetLike : AttrTree → Bool
  | .set _ => true
  | .arr xs => containsSetLikeList xs
  | .map kvs => containsSetLikeKVs kvs
  | _ => false
termination_by t => sizeOf t

/-- Does a set-like container occur in any element of the list? -/
def containsSetLikeList : List AttrTree → Bool
  | [] => false
  | x :: xs => containsSetLike x || containsSetLikeList xs
termination_by xs => sizeOf xs

/-- Does a set-like container occur in any value of the map? -/
def containsSetLikeKVs : List (String × AttrTree) → Bool
  | [] => false
  | (_, v) :: rest => containsSetLike v || containsSetLikeKVs rest
termination_by kvs => sizeOf kvs

end

/-- One atom of a compiled asset-name pattern: a literal character, or a
named capture group `(?P<x>[^/]+)` (one or more characters other than
`/`; the group name is irrelevant to matching). -/
inductive RegexAtom where
  | lit (c : Char)
  | wild

/-- Literal atoms of a pattern fragment. -/
def litAtoms (s : String) : List RegexAtom :=
  s.data.map RegexAtom.lit

/-- Does the atom sequence match some prefix of the character list?  This
is the matching semantics of the (unanchored) Go regular expressions used
as asset-name patterns, at one candidate start position: a literal atom
consumes its character, and `[^/]+` consumes one character other than `/`
and then either hands over to the remaining atoms or keeps consuming. -/
def matchAtoms : List RegexAtom → List Char → Bool
  | [], _ => true
  | .lit _ :: _, [] => false
  | .lit c :: rest, d :: ds => d == c && matchAtoms rest ds
  | .wild :: _, [] => false
  | .wild :: rest, d :: ds =>
      if d == '/' then false
      else matchAtoms rest ds || matchAtoms (.wild :: rest) ds

/-- Unanchored search, as `regexp.MatchString` performs it: does the
pattern match starting at some position of the character list? -/
def regexSearch (p : List RegexAtom) : List Char → Bool
  | [] => matchAtoms p []
  | c :: cs => matchAtoms p (c :: cs) || regexSearch p cs

/-- Modelled from the spec: `tryGetConverterNameByAssetNameRegex` (its
implementation is not among the repository files here — only its unit
test is), per §4.3 of the spec: iterate the pattern table's entries, test
the asset's resource name against each pattern with an unanchored regular
expression search, and return the first match's converter name; report
`found=false` (here `none`) if no pattern matches.  The table is passed
as a list because the order Go iterates the underlying map in is not
fixed. -/
def tryGetConverterNameByAssetNameRegex (assetName : String)
    (table : List (List RegexAtom × String)) : Option String :=
  match table with
  | [] => none
  | (p, name) :: rest =>
      if regexSearch p assetName.data then some name
      else tryGetConverterNameByAssetNameRegex assetName rest

/-- Demo converter emitting one instance block (used to instantiate the
orchestrator theorems on concrete runs). -/
def demoConvA : Converter :=
  fun _ => .ok [⟨["google_compute_instance", "vm1"], .vobj [("zone", .vstr "z1")]⟩]

/-- Demo converter emitting one health-check block. -/
def demoConvB : Converter :=
  fun _ => .ok [⟨["google_compute_health_check", "hc1"], .vobj [("port", .vstr "80")]⟩]

/-- Demo converter that fails. -/
def demoConvFail : Converter :=
  fun _ => .error "conversion failed"

/-- Two demo assets of two distinct types. -/
def demoAssets : List Asset :=
  [⟨"TypeA", "projects/p/instances/i"⟩, ⟨"TypeB", "projects/p/healthChecks/h"⟩]

/-- Demo exact resolution table sending the two asset types to two
distinct converter names. -/
def demoNames : List (String × String) :=
  [("TypeA", "google_compute_instance"), ("TypeB", "google_compute_health_check")]

/-- Demo converter map in which both groups succeed. -/
def demoMap : List (String × Converter) :=
  [("google_compute_instance", demoConvA), ("google_compute_health_check", demoConvB)]

/-- Demo converter map in which the health-check group fails. -/
def demoMapFail : List (String × Converter) :=
  [("google_compute_instance", demoConvA), ("google_compute_health_check", demoConvFail)]

/-- Attribute tree with a set nested inside a set's element (through a
map), the shape a flattened Terraform resource takes when a set-typed
field occurs inside a set of objects. -/
def nestedSetTree : AttrTree :=
  .set [.map [("inner", .set [])]]

/-- Compiled form of the pattern
`projects/(?P<project>[^/]+)/regions/(?P<region>[^/]+)/forwardingRules`
from the repository's resolver unit test. -/
def forwardingRulePattern : List RegexAtom :=
  litAtoms "projects/" ++ [RegexAtom.wild] ++ litAtoms "/regions/" ++
    [RegexAtom.wild] ++ litAtoms "/forwardingRules"

/-- Compiled form of the pattern
`projects/(?P<project>[^/]+)/global/forwardingRules` from the same
test. -/
def globalForwardingRulePattern : List RegexAtom :=
  litAtoms "projects/" ++ [RegexAtom.wild] ++ litAtoms "/global/forwardingRules"

/-- The two-entry pattern table of the repository's
`TestTryGetConverterNameByAssetNameRegex` unit test. -/
def testRegexTable : List (List RegexAtom × String) :=
  [(forwardingRulePattern, "google_compute_forwarding_rule"),
   (globalForwardingRulePattern, "compute_global_forwarding_rule")]

@[simp]
theorem except_ok_bind {α β : Type} (a : α) (f : α → Except String β) :
    (Except.ok a : Except String α) >>= f = f a := rfl

@[simp]
theorem except_error_bind {α β : Type} (e : String) (f : α → Except String β) :
    (Except.error e : Except String α) >>= f = Except.error e := rfl

theorem emitAttr_names (key : String) (v : Val) (items : List BodyItem)
    (h : emitAttr key v = .ok items) : ∀ i ∈ items, i.itemName = key := by
  unfold emitAttr at h
  split at h
  · cases h; intro i hi; simp at hi
  · cases h
    intro i hi
    rw [List.mem_singleton] at hi
    subst hi
    rfl

theorem hclWriteElems_names (key : String) (xs : List Val) (items : List BodyItem)
    (h : hclWriteElems key xs = .ok items) : ∀ i ∈ items, i.itemName = key := by
  induction xs generalizing items with
  | nil =>
      simp only [hclWriteElems] at h
      cases h
      intro i hi
      simp at hi
  | cons x rest ih =>
      simp only [hclWriteElems] at h
      cases hb : hclWriteBlock x with
      | error e => rw [hb] at h; simp at h
      | ok b =>
          rw [hb] at h
          cases hr : hclWriteElems key rest with
          | error e => rw [hr] at h; simp at h
          | ok restItems =>
              rw [hr] at h
              simp only [except_ok_bind] at h
              cases h
              intro i hi
              rcases List.mem_cons.mp hi with h1 | h2
              · subst h1; rfl
              · exact ih restItems hr i h2

theorem hclWriteField_names (key : String) (v : Val) (items : List BodyItem)
    (h : hclWriteField key v = .ok items) : ∀ i ∈ items, i.itemName = key := by
  cases v with
  | vnull t =>
      simp only [hclWriteField] at h
      cases h
      intro i hi
      simp at hi
  | vobj fields =>
      simp only [hclWriteField] at h
      cases hb : hclWriteBlock (.vobj fields) with
      | error e => rw [hb] at h; simp at h
      | ok b =>
          rw [hb] at h
          simp only [except_ok_bind] at h
          cases h
          intro i hi
          rw [List.mem_singleton] at hi
          subst hi
          rfl
  | vlist elem xs =>
      simp only [hclWriteField] at h
      split at h
      · cases h; intro i hi; simp at hi
      · split at h
        · exact hclWriteElems_names key xs items h
        · exact emitAttr_names key _ items h
  | vset elem xs =>
      simp only [hclWriteField] at h
      split at h
      · cases h; intro i hi; simp at hi
      · split at h
        · exact hclWriteElems_names key xs items h
        · exact emitAttr_names key _ items h
  | vmap elem kvs =>
      simp only [hclWriteField] at h
      split at h
      · cases h; intro i hi; simp at hi
      · exact emitAttr_names key _ items h
  | vstr s =>
      simp only [hclWriteField] at h
      exact emitAttr_names key _ items h
  | vnum n =>
      simp only [hclWriteField] at h
      exact emitAttr_names key _ items h
  | vbool b =>
      simp only [hclWriteField] at h
      exact emitAttr_names key _ items h

theorem hclWriteField_null_or_empty (key : String) (v : Val)
    (hv : v.isNull = true ∨ v = .vstr "") : hclWriteField key v = .ok [] := by
  rcases hv with hv | hv
  · cases v <;> simp_all [Val.isNull, hclWriteField]
  · subst hv
    simp [hclWriteField, emitAttr, Val.friendly, Val.asString]

theorem hclWriteBody_item_source (fields : List (String × Val)) (items : List BodyItem)
    (h : hclWriteBody fields = .ok items) :
    ∀ i ∈ items, ∃ p ∈ fields, ∃ fitems,
      hclWriteField p.1 p.2 = .ok fitems ∧ i ∈ fitems := by
  induction fields generalizing items with
  | nil =>
      simp only [hclWriteBody] at h
      cases h
      intro i hi
      simp at hi
  | cons p rest ih =>
      obtain ⟨key, v⟩ := p
      simp only [hclWriteBody] at h
      cases hf : hclWriteField key v with
      | error e => rw [hf] at h; simp at h
      | ok fitems =>
          rw [hf] at h
          cases hr : hclWriteBody rest with
          | error e => rw [hr] at h; simp at h
          | ok restItems =>
              rw [hr] at h
              simp only [except_ok_bind] at h
              cases h
              intro i hi
              rcases List.mem_append.mp hi with h1 | h2
              · exact ⟨(key, v), List.mem_cons_self _ _, fitems, hf, h1⟩
              · obtain ⟨q, hq, qitems, hqw, hqi⟩ := ih restItems hr i h2
                exact ⟨q, List.mem_cons_of_mem _ hq, qitems, hqw, hqi⟩

theorem keys_nodup_mem_unique {α : Type} {l : List (String × α)}
    (hnd : (l.map Prod.fst).Nodup) {k : String} {a b : α}
    (ha : (k, a) ∈ l) (hb : (k, b) ∈ l) : a = b := by
  induction l with
  | nil => simp at ha
  | cons p rest ih =>
      rw [List.map_cons, List.nodup_cons] at hnd
      rcases List.mem_cons.mp ha with h1 | h1 <;> rcases List.mem_cons.mp hb with h2 | h2
      · rw [← h1] at h2; exact (Prod.mk.injEq _ _ _ _ ▸ h2).2.symm
      · exfalso
        rw [← h1] at hnd
        exact hnd.1 (List.mem_map.mpr ⟨(k, b), h2, rfl⟩)
      · exfalso
        rw [← h2] at hnd
        exact hnd.1 (List.mem_map.mpr ⟨(k, a), h1, rfl⟩)
      · exact ih hnd.2 h1 h2

theorem hclWriteBody_append (l₁ l₂ : List (String × Val)) (items : List BodyItem)
    (h : hclWriteBody (l₁ ++ l₂) = .ok items) :
    ∃ i₁ i₂, hclWriteBody l₁ = .ok i₁ ∧ hclWriteBody l₂ = .ok i₂ ∧ items = i₁ ++ i₂ := by
  induction l₁ generalizing items with
  | nil =>
      exact ⟨[], items, by simp [hclWriteBody], h, rfl⟩
  | cons p rest ih =>
      obtain ⟨key, v⟩ := p
      rw [List.cons_append] at h
      simp only [hclWriteBody] at h ⊢
      cases hf : hclWriteField key v with
      | error e => rw [hf] at h; simp at h
      | ok fitems =>
          rw [hf] at h
          cases hr : hclWriteBody (rest ++ l₂) with
          | error e => rw [hr] at h; simp at h
          | ok restItems =>
              rw [hr] at h
              simp only [except_ok_bind] at h
              cases h
              obtain ⟨i₁, i₂, h1, h2, h3⟩ := ih restItems hr
              rw [h1]
              exact ⟨fitems ++ i₁, i₂, rfl, h2, by rw [h3, List.append_assoc]⟩

theorem hclWriteElems_shape (key : String) (xs : List Val) (items : List BodyItem)
    (h : hclWriteElems key xs = .ok items) :
    ∃ bodies, mapMExcept hclWriteBlock xs = .ok bodies ∧
      bodies.length = xs.length ∧
      items = bodies.map (fun b => BodyItem.block key b) := by
  induction xs generalizing items with
  | nil =>
      simp only [hclWriteElems] at h
      cases h
      exact ⟨[], rfl, rfl, rfl⟩
  | cons x rest ih =>
      simp only [hclWriteElems] at h
      cases hb : hclWriteBlock x with
      | error e => rw [hb] at h; simp at h
      | ok b =>
          rw [hb] at h
          cases hr : hclWriteElems key rest with
          | error e => rw [hr] at h; simp at h
          | ok restItems =>
              rw [hr] at h
              simp only [except_ok_bind] at h
              cases h
              obtain ⟨bodies, h1, h2, h3⟩ := ih restItems hr
              refine ⟨b :: bodies, ?_, by simp [h2], by simp [h3]⟩
              simp only [mapMExcept, hb, h1, except_ok_bind]

/-- C3 counterexample: a null value whose type is `string` — hence not an
object type — is a block root on which `hclWriteBlock` returns success
(`nil` error, nothing written), because the `IsNull` check precedes the
object-type check. -/
theorem hclWriteBlock_null_root_succeeds :
    (Val.vnull Ty.str).isObjectTyped = false ∧
      hclWriteBlock (Val.vnull Ty.str) = .ok [] :=
  ⟨rfl, by simp [hclWriteBlock]⟩

/-- C3 (amended): for every non-null value whose type is not an object
type, `hclWriteBlock` fails with the UnsupportedShape error naming the
value's type; a null root is the one non-object root that succeeds. -/
theorem hclWriteBlock_error_on_nonnull_nonobject (v : Val)
    (hn : v.isNull = false) (ho : v.isObjectTyped = false) :
    hclWriteBlock v = .error ("expect object type only, but type = " ++ v.friendly) := by
  cases v <;> simp_all [Val.isNull, Val.isObjectTyped, hclWriteBlock]

/-- C3 witness: a bare string root is rejected with the UnsupportedShape
error. -/
theorem hclWriteBlock_error_on_nonnull_nonobject_witness :
    (Val.vstr "x").isNull = false ∧ (Val.vstr "x").isObjectTyped = false ∧
      hclWriteBlock (Val.vstr "x") =
        .error ("expect object type only, but type = " ++ (Val.vstr "x").friendly) :=
  ⟨rfl, rfl, hclWriteBlock_error_on_nonnull_nonobject (Val.vstr "x") rfl rfl⟩

/-- C5: in the body written for an object value, a field bound to a null
value or to the empty string contributes nothing: its key appears in no
emitted attribute or block name. -/
theorem writer_omits_null_and_empty_fields (fields : List (String × Val)) (key : String)
    (v : Val) (items : List BodyItem)
    (hnd : (fields.map Prod.fst).Nodup)
    (hmem : (key, v) ∈ fields)
    (hv : v.isNull = true ∨ v = .vstr "")
    (hw : hclWriteBlock (.vobj fields) = .ok items) :
    key ∉ items.map BodyItem.itemName := by
  intro hk
  rw [List.mem_map] at hk
  obtain ⟨i, hi, hname⟩ := hk
  have hbody : hclWriteBody fields = .ok items := by simpa [hclWriteBlock] using hw
  obtain ⟨p, hp, fitems, hpw, hpi⟩ := hclWriteBody_item_source fields items hbody i hi
  obtain ⟨k1, v1⟩ := p
  have hk1 : k1 = key := by
    have := hclWriteField_names k1 v1 fitems hpw i hpi
    rw [this] at hname
    exact hname
  subst hk1
  have hv1 : v1 = v := keys_nodup_mem_unique hnd hp hmem
  subst hv1
  rw [hclWriteField_null_or_empty k1 v1 hv] at hpw
  cases hpw
  simp at hpi

/-- C5 witness: a body with a null field `a`, an empty-string field `b`
and a number field `c` renders only `c`; neither `a` nor `b` occurs among
the emitted names. -/
theorem writer_omits_null_and_empty_fields_witness :
    (([("a", Val.vnull Ty.str), ("b", Val.vstr ""), ("c", Val.vnum 1)].map Prod.fst).Nodup) ∧
      ("a", Val.vnull Ty.str) ∈ [("a", Val.vnull Ty.str), ("b", Val.vstr ""), ("c", Val.vnum 1)] ∧
      ("b", Val.vstr "") ∈ [("a", Val.vnull Ty.str), ("b", Val.vstr ""), ("c", Val.vnum 1)] ∧
      hclWriteBlock (.vobj [("a", Val.vnull Ty.str), ("b", Val.vstr ""), ("c", Val.vnum 1)]) =
        .ok [BodyItem.attr "c" (Val.vnum 1)] ∧
      "a" ∉ ([BodyItem.attr "c" (Val.vnum 1)].map BodyItem.itemName) ∧
      "b" ∉ ([BodyItem.attr "c" (Val.vnum 1)].map BodyItem.itemName) := by
  have hnd : (([("a", Val.vnull Ty.str), ("b", Val.vstr ""), ("c", Val.vnum 1)].map Prod.fst).Nodup) := by
    decide
  have hma : ("a", Val.vnull Ty.str) ∈
      [("a", Val.vnull Ty.str), ("b", Val.vstr ""), ("c", Val.vnum 1)] := by simp
  have hmb : ("b", Val.vstr "") ∈
      [("a", Val.vnull Ty.str), ("b", Val.vstr ""), ("c", Val.vnum 1)] := by simp
  have hw : hclWriteBlock (.vobj [("a", Val.vnull Ty.str), ("b", Val.vstr ""), ("c", Val.vnum 1)]) =
      .ok [BodyItem.attr "c" (Val.vnum 1)] := by
    simp [hclWriteBlock, hclWriteBody, hclWriteField, emitAttr, Val.friendly, Val.asString]
  exact ⟨hnd, hma, hmb, hw,
    writer_omits_null_and_empty_fields _ "a" (Val.vnull Ty.str) _ hnd hma (Or.inl rfl) hw,
    writer_omits_null_and_empty_fields _ "b" (Val.vstr "") _ hnd hmb (Or.inr rfl) hw⟩

/-- C6: a field holding a non-empty non-map collection (list or set)
whose element type is an object type is written as one repeated nested
block per element, named after the field, in element order: the emitted
body contains the per-element blocks contiguously, paired one-to-one and
in order with the collection's elements. -/
theorem writer_list_of_objects_repeated_blocks
    (pre post : List (String × Val)) (key : String) (elemTy : Ty) (xs : List Val)
    (v : Val) (items : List BodyItem)
    (hv : v = .vlist elemTy xs ∨ v = .vset elemTy xs)
    (he : elemTy.isObject = true)
    (hne : xs ≠ [])
    (hw : hclWriteBlock (.vobj (pre ++ (key, v) :: post)) = .ok items) :
    ∃ before bodies after,
      mapMExcept hclWriteBlock xs = .ok bodies ∧
      bodies.length = xs.length ∧
      items = before ++ bodies.map (fun b => BodyItem.block key b) ++ after := by
  have hbody : hclWriteBody (pre ++ (key, v) :: post) = .ok items := by
    simpa [hclWriteBlock] using hw
  obtain ⟨i₁, i₂, h1, h2, h3⟩ := hclWriteBody_append pre ((key, v) :: post) items hbody
  simp only [hclWriteBody] at h2
  cases hf : hclWriteField key v with
  | error e => rw [hf] at h2; simp at h2
  | ok fitems =>
      rw [hf] at h2
      cases hr : hclWriteBody post with
      | error e => rw [hr] at h2; simp at h2
      | ok restItems =>
          rw [hr] at h2
          simp only [except_ok_bind] at h2
          cases h2
          have hlen : (xs.length == 0) = false := by
            cases xs with
            | nil => exact absurd rfl hne
            | cons y ys => rfl
          have hfe : hclWriteElems key xs = .ok fitems := by
            rcases hv with hv | hv <;> subst hv <;>
              simpa [hclWriteField, hlen, he] using hf
          obtain ⟨bodies, hb1, hb2, hb3⟩ := hclWriteElems_shape key xs fitems hfe
          refine ⟨i₁, bodies, restItems, hb1, hb2, ?_⟩
          rw [h3, hb3, List.append_assoc]

/-- C6 witness: a field `f` holding a two-element list of objects is
written as two `f` blocks, in element order. -/
theorem writer_list_of_objects_repeated_blocks_witness :
    ((Val.vlist (Ty.obj [("x", Ty.str)]) [Val.vobj [("x", Val.vstr "1")], Val.vobj [("x", Val.vstr "2")]] : Val)
        = .vlist (Ty.obj [("x", Ty.str)]) [Val.vobj [("x", Val.vstr "1")], Val.vobj [("x", Val.vstr "2")]] ∨
      (Val.vlist (Ty.obj [("x", Ty.str)]) [Val.vobj [("x", Val.vstr "1")], Val.vobj [("x", Val.vstr "2")]] : Val)
        = .vset (Ty.obj [("x", Ty.str)]) [Val.vobj [("x", Val.vstr "1")], Val.vobj [("x", Val.vstr "2")]]) ∧
    (Ty.obj [("x", Ty.str)]).isObject = true ∧
    ([Val.vobj [("x", Val.vstr "1")], Val.vobj [("x", Val.vstr "2")]] : List Val) ≠ [] ∧
    hclWriteBlock (.vobj [("f",
        Val.vlist (Ty.obj [("x", Ty.str)]) [Val.vobj [("x", Val.vstr "1")], Val.vobj [("x", Val.vstr "2")]])]) =
      .ok [BodyItem.block "f" [BodyItem.attr "x" (Val.vstr "1")],
           BodyItem.block "f" [BodyItem.attr "x" (Val.vstr "2")]] ∧
    (∃ before bodies after,
      mapMExcept hclWriteBlock [Val.vobj [("x", Val.vstr "1")], Val.vobj [("x", Val.vstr "2")]] = .ok bodies ∧
      bodies.length = ([Val.vobj [("x", Val.vstr "1")], Val.vobj [("x", Val.vstr "2")]] : List Val).length ∧
      [BodyItem.block "f" [BodyItem.attr "x" (Val.vstr "1")],
       BodyItem.block "f" [BodyItem.attr "x" (Val.vstr "2")]] =
        before ++ bodies.map (fun b => BodyItem.block "f" b) ++ after) := by
  have hw : hclWriteBlock (.vobj [("f",
      Val.vlist (Ty.obj [("x", Ty.str)]) [Val.vobj [("x", Val.vstr "1")], Val.vobj [("x", Val.vstr "2")]])]) =
      .ok [BodyItem.block "f" [BodyItem.attr "x" (Val.vstr "1")],
           BodyItem.block "f" [BodyItem.attr "x" (Val.vstr "2")]] := by
    simp [hclWriteBlock, hclWriteBody, hclWriteField, hclWriteElems, emitAttr,
      Val.friendly, Val.asString, Ty.isObject]
  refine ⟨Or.inl rfl, rfl, by simp, hw, ?_⟩
  exact writer_list_of_objects_repeated_blocks [] [] "f" (Ty.obj [("x", Ty.str)])
    [Val.vobj [("x", Val.vstr "1")], Val.vobj [("x", Val.vstr "2")]] _ _
    (Or.inl rfl) rfl (by simp) hw

mutual

theorem normalizeFlattenedMap_fixed :
    ∀ (t : AttrTree), containsSetLike t = false → normalizeFlattenedMap t = t
  | .arr xs, h => by
      have hx : containsSetLikeList xs = false := by simpa [containsSetLike] using h
      simp only [normalizeFlattenedMap]
      rw [normalizeList_fixed xs hx]
  | .map kvs, h => by
      have hx : containsSetLikeKVs kvs = false := by simpa [containsSetLike] using h
      simp only [normalizeFlattenedMap]
      rw [normalizeKVs_fixed kvs hx]
  | .set _, h => by simp [containsSetLike] at h
  | .scalarStr _, _ => by simp [normalizeFlattenedMap]
  | .scalarNum _, _ => by simp [normalizeFlattenedMap]
  | .scalarBool _, _ => by simp [normalizeFlattenedMap]
  | .scalarNull, _ => by simp [normalizeFlattenedMap]
termination_by t _ => (sizeOf t, 0)

theorem normalizeList_fixed :
    ∀ (xs : List AttrTree), containsSetLikeList xs = false → normalizeList xs = xs
  | [], _ => by simp [normalizeList]
  | y :: ys, h => by
      have hy : containsSetLike y = false ∧ containsSetLikeList ys = false := by
        simpa [containsSetLikeList, Bool.or_eq_false_iff] using h
      simp only [normalizeList]
      rw [normalizeFlattenedMap_fixed y hy.1, normalizeList_fixed ys hy.2]
termination_by xs _ => (sizeOf xs, 1)

theorem normalizeKVs_fixed :
    ∀ (kvs : List (String × AttrTree)), containsSetLikeKVs kvs = false → normalizeKVs kvs = kvs
  | [], _ => by simp [normalizeKVs]
  | (k, v) :: rest, h => by
      have hv : containsSetLike v = false ∧ containsSetLikeKVs rest = false := by
        simpa [containsSetLikeKVs, Bool.or_eq_false_iff] using h
      simp only [normalizeKVs]
      rw [normalizeFlattenedMap_fixed v hv.1, normalizeKVs_fixed rest hv.2]
termination_by kvs _ => (sizeOf kvs, 1)

end

/-- C2 (code-bug evidence): on a set-like container holding a map whose
value is itself a set-like container — the shape a set of objects with a
set-typed field flattens to — the normalizer's result still contains a
set-like container, because the `*schema.Set` arm returns
`obj.(*schema.Set).List()` without normalizing the elements. -/
theorem normalize_keeps_nested_set :
    containsSetLike (normalizeFlattenedMap nestedSetTree) = true := by
  simp [nestedSetTree, normalizeFlattenedMap, containsSetLike,
    containsSetLikeList, containsSetLikeKVs]

/-- C8 counterexample: on the same nested-set tree, a second application
of the normalizer changes the result again (it eliminates the surviving
inner set), so `Normalize(Normalize(t)) = Normalize(t)` fails. -/
theorem normalize_not_idempotent :
    containsSetLike (normalizeFlattenedMap nestedSetTree) = true ∧
    containsSetLike (normalizeFlattenedMap (normalizeFlattenedMap nestedSetTree)) = false ∧
    normalizeFlattenedMap (normalizeFlattenedMap nestedSetTree) ≠
      normalizeFlattenedMap nestedSetTree := by
  have h1 : containsSetLike (normalizeFlattenedMap nestedSetTree) = true := by
    simp [nestedSetTree, normalizeFlattenedMap, containsSetLike,
      containsSetLikeList, containsSetLikeKVs]
  have h2 : containsSetLike (normalizeFlattenedMap (normalizeFlattenedMap nestedSetTree)) = false := by
    simp [nestedSetTree, normalizeFlattenedMap, normalizeList, normalizeKVs,
      containsSetLike, containsSetLikeList, containsSetLikeKVs]
  refine ⟨h1, h2, fun heq => ?_⟩
  have hc := congrArg containsSetLike heq
  rw [h1, h2] at hc
  exact Bool.noConfusion hc

/-- C8 (amended): a tree with no set-like container at any depth is a
fixed point of the normalizer; full idempotence fails (see the
counterexample) because a set's materialized elements are not
recursively normalized. -/
theorem normalize_fixed_on_normalized (t : AttrTree) (h : containsSetLike t = false) :
    normalizeFlattenedMap t = t :=
  normalizeFlattenedMap_fixed t h

/-- C8 witness: a set-free map/array tree is returned unchanged. -/
theorem normalize_fixed_on_normalized_witness :
    containsSetLike (.map [("a", .arr [.scalarStr "x", .scalarNum 2])]) = false ∧
    normalizeFlattenedMap (.map [("a", .arr [.scalarStr "x", .scalarNum 2])]) =
      .map [("a", .arr [.scalarStr "x", .scalarNum 2])] := by
  have h : containsSetLike (AttrTree.map [("a", .arr [.scalarStr "x", .scalarNum 2])]) = false := by
    simp [containsSetLike, containsSetLikeList, containsSetLikeKVs]
  exact ⟨h, normalize_fixed_on_normalized _ h⟩

theorem except_bind_ok_eq_map {α β : Type} (x : Except String α) (g : α → β) :
    (do let r ← x; (.ok (g r) : Except String β)) = x.map g := by
  cases x <;> rfl

theorem buildGroups_filter (assets : List Asset) (names : List (String × String)) :
    buildGroups assets names =
      buildGroups (assets.filter (fun a => (List.lookup a.assetType names).isSome)) names := by
  unfold buildGroups
  generalize ([] : List (String × List Asset)) = gs
  induction assets generalizing gs with
  | nil => rfl
  | cons a rest ih =>
      cases hl : List.lookup a.assetType names with
      | none => simp only [List.foldl_cons, List.filter_cons, hl, Option.isSome_none,
          Bool.false_eq_true, if_false, ih]
      | some n => simp only [List.foldl_cons, List.filter_cons, hl, Option.isSome_some,
          if_true, ih]

theorem mapM_flatten_filter (f : String → Except String (List TopBlock)) (p : String → Bool)
    (hf : ∀ k, p k = false → f k = .ok []) :
    ∀ (order : List String),
      (mapMExcept f order).map List.flatten =
        (mapMExcept f (order.filter p)).map List.flatten
  | [] => rfl
  | k :: rest => by
      have ih := mapM_flatten_filter f p hf rest
      by_cases hp : p k
      · rw [List.filter_cons_of_pos hp]
        simp only [mapMExcept]
        cases hk : f k with
        | error e => simp [Except.map]
        | ok b =>
            simp only [except_ok_bind]
            cases hm : mapMExcept f rest with
            | error e =>
                rw [hm] at ih
                cases hm2 : mapMExcept f (rest.filter p) with
                | error e2 =>
                    rw [hm2] at ih
                    simp only [Except.map] at ih ⊢
                    exact ih
                | ok rs2 => rw [hm2] at ih; simp [Except.map] at ih
            | ok rs =>
                rw [hm] at ih
                cases hm2 : mapMExcept f (rest.filter p) with
                | error e2 => rw [hm2] at ih; simp [Except.map] at ih
                | ok rs2 =>
                    rw [hm2] at ih
                    simp only [Except.map, Except.ok.injEq] at ih
                    simp only [except_ok_bind, Except.map, Except.ok.injEq,
                      List.flatten_cons, ih]
      · rw [List.filter_cons_of_neg hp]
        have hk : f k = .ok [] := hf k (by simpa using hp)
        simp only [mapMExcept, hk, except_ok_bind]
        cases hm : mapMExcept f rest with
        | error e =>
            rw [hm] at ih
            simp only [Except.map] at ih ⊢
            exact ih
        | ok rs =>
            rw [hm] at ih
            simp only [Except.map] at ih ⊢
            simpa using ih

/-- C9: assets whose type identifier has no entry in the resolution table
are silently dropped: `Convert` returns exactly what it returns on the
batch restricted to resolvable assets, for every converter map and every
group-iteration order. -/
theorem convert_drops_unresolved_assets (assets : List Asset)
    (names : List (String × String)) (cmap : List (String × Converter))
    (order : List String) :
    Convert assets names cmap order =
      Convert (assets.filter (fun a => (List.lookup a.assetType names).isSome)) names cmap order := by
  unfold Convert convertDoc
  rw [← buildGroups_filter]

/-- C10: a group whose resolved converter name has no entry in the
converter map is skipped without error: `Convert` returns exactly what it
returns when those group names are removed from the iteration order, so
the other groups are still converted and written. -/
theorem convert_skips_missing_converter (assets : List Asset)
    (names : List (String × String)) (cmap : List (String × Converter))
    (order : List String) :
    Convert assets names cmap order =
      Convert assets names cmap (order.filter (fun k => (List.lookup k cmap).isSome)) := by
  have hf : ∀ k, (fun k => (List.lookup k cmap).isSome) k = false →
      stepGroup cmap (buildGroups assets names) k = .ok [] := by
    intro k hk
    have hk2 : (List.lookup k cmap).isSome = false := hk
    cases hl : List.lookup k cmap with
    | none => simp [stepGroup, hl]
    | some c => rw [hl] at hk2; simp at hk2
  have h := mapM_flatten_filter (stepGroup cmap (buildGroups assets names)) _ hf order
  unfold Convert convertDoc
  rw [except_bind_ok_eq_map, except_bind_ok_eq_map, h]

theorem mapMExcept_error_of_mem (f : String → Except String (List TopBlock))
    (g : String) (e : String) (he : f g = .error e) :
    ∀ (order : List String), g ∈ order →
      (∀ k ∈ order, k ≠ g → exceptIsOk (f k) = true) →
      mapMExcept f order = .error e
  | [], hmem, _ => absurd hmem (List.not_mem_nil g)
  | k :: rest, hmem, hok => by
      by_cases hkg : k = g
      · subst hkg
        simp only [mapMExcept, he, except_error_bind]
      · have hk : exceptIsOk (f k) = true := hok k (List.mem_cons_self k rest) hkg
        cases hfk : f k with
        | error e2 => rw [hfk] at hk; simp [exceptIsOk] at hk
        | ok b =>
            have hgmem : g ∈ rest := by
              rcases List.mem_cons.mp hmem with h | h
              · exact absurd h.symm hkg
              · exact h
            have hrec := mapMExcept_error_of_mem f g e he rest hgmem
              (fun k2 hk2 hne => hok k2 (List.mem_cons_of_mem _ hk2) hne)
            simp only [mapMExcept, hfk, except_ok_bind, hrec, except_error_bind]

/-- C4: if the converter of some group fails, `Convert` fails with that
converter's error and returns no document — provided every other group in
the iteration order succeeds (is skipped or converts and writes without
error), so that the failing group's error is the one reached. -/
theorem convert_error_propagates (assets : List Asset)
    (names : List (String × String)) (cmap : List (String × Converter))
    (order : List String) (g : String) (conv : Converter) (e : String)
    (hconv : List.lookup g cmap = some conv)
    (herr : conv ((List.lookup g (buildGroups assets names)).getD []) = .error e)
    (hmem : g ∈ order)
    (hok : ∀ k ∈ order, k ≠ g →
      exceptIsOk (stepGroup cmap (buildGroups assets names) k) = true) :
    Convert assets names cmap order = .error e := by
  have hstep : stepGroup cmap (buildGroups assets names) g = .error e := by
    simp only [stepGroup, hconv, herr, except_error_bind]
  have hm := mapMExcept_error_of_mem _ g e hstep order hmem hok
  simp [Convert, convertDoc, hm, Except.map]

/-- C4 witness: of two groups, the health-check group's converter fails
with "conversion failed" and the whole conversion returns exactly that
error, although the instance group converts fine. -/
theorem convert_error_propagates_witness :
    List.lookup "google_compute_health_check" demoMapFail = some demoConvFail ∧
    demoConvFail ((List.lookup "google_compute_health_check"
        (buildGroups demoAssets demoNames)).getD []) = .error "conversion failed" ∧
    "google_compute_health_check" ∈
      ["google_compute_instance", "google_compute_health_check"] ∧
    (∀ k ∈ ["google_compute_instance", "google_compute_health_check"],
      k ≠ "google_compute_health_check" →
      exceptIsOk (stepGroup demoMapFail (buildGroups demoAssets demoNames) k) = true) ∧
    Convert demoAssets demoNames demoMapFail
      ["google_compute_instance", "google_compute_health_check"] =
      .error "conversion failed" := by
  have hok : ∀ k ∈ ["google_compute_instance", "google_compute_health_check"],
      k ≠ "google_compute_health_check" →
      exceptIsOk (stepGroup demoMapFail (buildGroups demoAssets demoNames) k) = true := by
    intro k hk hne
    rcases List.mem_cons.mp hk with h | h
    · subst h
      simp [stepGroup, demoMapFail, demoConvA, demoAssets, demoNames, buildGroups,
        addAssetToGroups, mapMExcept, hclWriteBlock, hclWriteBody, hclWriteField,
        emitAttr, Val.friendly, Val.asString, exceptIsOk]
    · rcases List.mem_cons.mp h with h2 | h2
      · exact absurd h2 hne
      · simp at h2
  refine ⟨rfl, rfl, by simp, hok, ?_⟩
  exact convert_error_propagates demoAssets demoNames demoMapFail
    ["google_compute_instance", "google_compute_health_check"]
    "google_compute_health_check" demoConvFail "conversion failed"
    rfl rfl (by simp) hok

theorem mapMExcept_ok_eq_map (f : String → Except String (List TopBlock)) :
    ∀ (o : List String) (r : List (List TopBlock)), mapMExcept f o = .ok r →
      r = o.map (fun k => (f k).toOption.getD [])
  | [], r, h => by
      simp only [mapMExcept] at h
      cases h
      rfl
  | k :: rest, r, h => by
      simp only [mapMExcept] at h
      cases hk : f k with
      | error e => rw [hk] at h; simp at h
      | ok b =>
          rw [hk] at h
          cases hm : mapMExcept f rest with
          | error e => rw [hm] at h; simp at h
          | ok rs =>
              rw [hm] at h
              simp only [except_ok_bind] at h
              cases h
              have ih := mapMExcept_ok_eq_map f rest rs hm
              rw [List.map_cons, hk, ← ih]
              rfl

/-- C1 (amended): for one fixed group-iteration order `Convert` is a pure
function of its inputs, and for any two iteration orders of the same
groups that both succeed, the produced documents hold the same resource
blocks as a permutation of each other: what varies between runs is only
the relative order of different groups' block segments, which follows
Go's randomized map iteration order. -/
theorem convert_blocks_perm_of_order_perm (assets : List Asset)
    (names : List (String × String)) (cmap : List (String × Converter))
    (o₁ o₂ : List String) (hperm : o₁.Perm o₂) (bs₁ bs₂ : List TopBlock)
    (h₁ : convertDoc assets names cmap o₁ = .ok bs₁)
    (h₂ : convertDoc assets names cmap o₂ = .ok bs₂) :
    bs₁.Perm bs₂ := by
  simp only [convertDoc] at h₁ h₂
  cases hm₁ : mapMExcept (stepGroup cmap (buildGroups assets names)) o₁ with
  | error e => rw [hm₁] at h₁; simp at h₁
  | ok r₁ =>
      rw [hm₁] at h₁
      simp only [except_ok_bind] at h₁
      cases h₁
      cases hm₂ : mapMExcept (stepGroup cmap (buildGroups assets names)) o₂ with
      | error e => rw [hm₂] at h₂; simp at h₂
      | ok r₂ =>
          rw [hm₂] at h₂
          simp only [except_ok_bind] at h₂
          cases h₂
          have e₁ := mapMExcept_ok_eq_map _ o₁ r₁ hm₁
          have e₂ := mapMExcept_ok_eq_map _ o₂ r₂ hm₂
          subst e₁
          subst e₂
          exact (hperm.map _).flatten

/-- C1 counterexample: with two resolvable asset groups, the two group
iteration orders Go may pick on different runs — both permutations of the
group keys — make `Convert` return different document bytes: block order
across groups varies between runs. -/
theorem convert_output_depends_on_group_order :
    (["google_compute_instance", "google_compute_health_check"].Perm
        ((buildGroups demoAssets demoNames).map Prod.fst)) ∧
    (["google_compute_health_check", "google_compute_instance"].Perm
        ((buildGroups demoAssets demoNames).map Prod.fst)) ∧
    Convert demoAssets demoNames demoMap
        ["google_compute_instance", "google_compute_health_check"] ≠
      Convert demoAssets demoNames demoMap
        ["google_compute_health_check", "google_compute_instance"] := by
  refine ⟨by decide, by decide, fun h => ?_⟩
  simp [Convert, convertDoc, demoAssets, demoNames, demoMap, demoConvA, demoConvB,
    buildGroups, addAssetToGroups, stepGroup, mapMExcept, List.lookup,
    hclWriteBlock, hclWriteBody, hclWriteField, emitAttr, Val.friendly, Val.asString,
    renderDocument, renderTopBlock, renderItems, renderItem, renderVal,
    String.join, Except.map] at h

/-- C1 witness (for the amended permutation theorem): the two orders of
the demo groups both succeed and their block lists are permutations of
each other. -/
theorem convert_blocks_perm_of_order_perm_witness :
    (["google_compute_instance", "google_compute_health_check"].Perm
        ["google_compute_health_check", "google_compute_instance"]) ∧
    convertDoc demoAssets demoNames demoMap
        ["google_compute_instance", "google_compute_health_check"] =
      .ok [TopBlock.mk ["google_compute_instance", "vm1"] [BodyItem.attr "zone" (Val.vstr "z1")],
           TopBlock.mk ["google_compute_health_check", "hc1"] [BodyItem.attr "port" (Val.vstr "80")]] ∧
    convertDoc demoAssets demoNames demoMap
        ["google_compute_health_check", "google_compute_instance"] =
      .ok [TopBlock.mk ["google_compute_health_check", "hc1"] [BodyItem.attr "port" (Val.vstr "80")],
           TopBlock.mk ["google_compute_instance", "vm1"] [BodyItem.attr "zone" (Val.vstr "z1")]] ∧
    ([TopBlock.mk ["google_compute_instance", "vm1"] [BodyItem.attr "zone" (Val.vstr "z1")],
      TopBlock.mk ["google_compute_health_check", "hc1"] [BodyItem.attr "port" (Val.vstr "80")]].Perm
     [TopBlock.mk ["google_compute_health_check", "hc1"] [BodyItem.attr "port" (Val.vstr "80")],
      TopBlock.mk ["google_compute_instance", "vm1"] [BodyItem.attr "zone" (Val.vstr "z1")]]) := by
  have h₁ : convertDoc demoAssets demoNames demoMap
      ["google_compute_instance", "google_compute_health_check"] =
      .ok [TopBlock.mk ["google_compute_instance", "vm1"] [BodyItem.attr "zone" (Val.vstr "z1")],
           TopBlock.mk ["google_compute_health_check", "hc1"] [BodyItem.attr "port" (Val.vstr "80")]] := by
    simp [convertDoc, demoAssets, demoNames, demoMap, demoConvA, demoConvB,
      buildGroups, addAssetToGroups, stepGroup, mapMExcept, List.lookup,
      hclWriteBlock, hclWriteBody, hclWriteField, emitAttr, Val.friendly, Val.asString]
  have h₂ : convertDoc demoAssets demoNames demoMap
      ["google_compute_health_check", "google_compute_instance"] =
      .ok [TopBlock.mk ["google_compute_health_check", "hc1"] [BodyItem.attr "port" (Val.vstr "80")],
           TopBlock.mk ["google_compute_instance", "vm1"] [BodyItem.attr "zone" (Val.vstr "z1")]] := by
    simp [convertDoc, demoAssets, demoNames, demoMap, demoConvA, demoConvB,
      buildGroups, addAssetToGroups, stepGroup, mapMExcept, List.lookup,
      hclWriteBlock, hclWriteBody, hclWriteField, emitAttr, Val.friendly, Val.asString]
  refine ⟨by decide, h₁, h₂, ?_⟩
  exact convert_blocks_perm_of_order_perm demoAssets demoNames demoMap
    ["google_compute_instance", "google_compute_health_check"]
    ["google_compute_health_check", "google_compute_instance"]
    (by decide) _ _ h₁ h₂

theorem regexSearch_mono : ∀ (pre : List Char) (p : List RegexAtom) (s : List Char),
    regexSearch p s = true → regexSearch p (pre ++ s) = true
  | [], _, _, h => h
  | c :: cs, p, s, h => by
      have ih := regexSearch_mono cs p s h
      simp only [List.cons_append, regexSearch, List.append_eq, ih, Bool.or_true]

/-- C7: if the pattern resolver sends a bare resource name to converter
`c`, it sends the name prefixed with a source-service URL segment to the
same converter `c`, for every entry order of the table — given that the
prefix makes no additional pattern match (the spec's standing assumption
that patterns are mutually exclusive on the inputs fed to the system).
The unanchored search itself is prefix-tolerant unconditionally
(`regexSearch_mono`). -/
theorem resolver_prefix_tolerant (pre bare : String) (c : String) :
    ∀ (table : List (List RegexAtom × String)),
      tryGetConverterNameByAssetNameRegex bare table = some c →
      (∀ pc ∈ table, regexSearch pc.1 (pre ++ bare).data = true →
        regexSearch pc.1 bare.data = true) →
      tryGetConverterNameByAssetNameRegex (pre ++ bare) table = some c
  | [], h1, _ => by simp [tryGetConverterNameByAssetNameRegex] at h1
  | (p, name) :: rest, h1, h2 => by
      simp only [tryGetConverterNameByAssetNameRegex] at h1 ⊢
      cases hb : regexSearch p bare.data with
      | true =>
          rw [hb] at h1
          simp only [if_pos] at h1
          have hp : regexSearch p (pre ++ bare).data = true := by
            rw [String.data_append]
            exact regexSearch_mono pre.data p bare.data hb
          rw [hp]
          simpa using h1
      | false =>
          rw [hb] at h1
          simp only [Bool.false_eq_true, if_false] at h1
          have hp : regexSearch p (pre ++ bare).data = false := by
            cases hx : regexSearch p (pre ++ bare).data with
            | false => rfl
            | true =>
                have hy := h2 (p, name) (List.mem_cons_self _ _) hx
                rw [hy] at hb
                exact Bool.noConfusion hb
          rw [hp]
          simp only [Bool.false_eq_true, if_false]
          exact resolver_prefix_tolerant pre bare c rest h1
            (fun pc hpc hx => h2 pc (List.mem_cons_of_mem _ hpc) hx)

/-- C7 witness: on the repository test's own table and resource name,
the resolver picks `google_compute_forwarding_rule` both for the bare
name and for the name prefixed with `//compute.googleapis.com/`. -/
theorem resolver_prefix_tolerant_witness :
    tryGetConverterNameByAssetNameRegex
        "projects/myproj/regions/us-central1/forwardingRules/test-1" testRegexTable =
      some "google_compute_forwarding_rule" ∧
    (∀ pc ∈ testRegexTable,
      regexSearch pc.1
          (("//compute.googleapis.com/" : String) ++
            "projects/myproj/regions/us-central1/forwardingRules/test-1").data = true →
      regexSearch pc.1
          ("projects/myproj/regions/us-central1/forwardingRules/test-1" : String).data = true) ∧
    tryGetConverterNameByAssetNameRegex
        (("//compute.googleapis.com/" : String) ++
          "projects/myproj/regions/us-central1/forwardingRules/test-1") testRegexTable =
      some "google_compute_forwarding_rule" := by
  refine ⟨by decide, by decide, ?_⟩
  exact resolver_prefix_tolerant "//compute.googleapis.com/"
    "projects/myproj/regions/us-central1/forwardingRules/test-1"
    "google_compute_forwarding_rule" testRegexTable (by decide) (by decide)
